import Mathlib

/-!
Shallow embedding of the terrain elevation tile loader/cache
(`TerrainHeightLoader` with its helper classes `UsageTracker`,
`HeightLoaderTile` and `RequestQueue`).

JavaScript `Map`s are modelled as association lists with replace-in-place
`set` semantics, the `Set` of owner handles as a `Finset Nat`, and the
asynchronous fetch pipeline as an explicit completion event
(`completeRequest`) that can fire once a request has been admitted to the
in-flight set.  Ghost fields (`fetches`, `resolved`, `faulted`) log the
observable interactions: issued network fetches, resolutions delivered to
suspended callers, and a TypeError escaping the completion fan-out.
-/

/-- JS `Map.get`: first binding of the key, if any. -/
def getAssoc {α β : Type} [DecidableEq α] : List (α × β) → α → Option β
  | [], _ => none
  | (k', v) :: rest, k => if k' = k then some v else getAssoc rest k

/-- JS `Map.set`: replace the existing binding in place, else append. -/
def setAssoc {α β : Type} [DecidableEq α] : List (α × β) → α → β → List (α × β)
  | [], k, v => [(k, v)]
  | (k', v') :: rest, k, v =>
      if k' = k then (k, v) :: rest else (k', v') :: setAssoc rest k v

abbrev Owner := Nat

abbrev Coord := Nat × Nat × Nat

/-- Decoded elevation payload (`TerrainHeightLoaderBitmap`): a raster of
rational elevation samples in row-major order. -/
structure Bitmap where
  width : Nat
  height : Nat
  data : List ℚ
deriving DecidableEq, Repr

def Bitmap.px (b : Bitmap) (i j : Nat) : ℚ := b.data.getD (j * b.width + i) 0

/-- Modelled from the spec: `TerrainHeightLoaderBitmap.downscale` is not part
of the sources; the spec describes it as producing a half-resolution
box/average-downsampled payload from the just-decoded raster. -/
def Bitmap.downscale (b : Bitmap) : Bitmap :=
  { width := b.width / 2
    height := b.height / 2
    data := (List.range (b.width / 2 * (b.height / 2))).map fun idx =>
      (b.px (2 * (idx % (b.width / 2))) (2 * (idx / (b.width / 2)))
        + b.px (2 * (idx % (b.width / 2)) + 1) (2 * (idx / (b.width / 2)))
        + b.px (2 * (idx % (b.width / 2))) (2 * (idx / (b.width / 2)) + 1)
        + b.px (2 * (idx % (b.width / 2)) + 1) (2 * (idx / (b.width / 2)) + 1)) / 4 }

/-- `TerrainHeightLoader.decodeBitmap`: each pixel's RGB channels are packed
and mapped to `-10000 + (r * 256 * 256 + g * 256 + b) * 0.1`. -/
def decodeBitmap (width height : Nat) (pixels : List (Nat × Nat × Nat)) : Bitmap :=
  { width := width
    height := height
    data := pixels.map fun p =>
      -10000 + ((p.1 * 256 * 256 + p.2.1 * 256 + p.2.2 : Nat) : ℚ) * 0.1 }

/-- `UsageTracker`: a set of opaque owner identities. -/
structure UsageTracker where
  users : Finset Owner
deriving DecidableEq

def UsageTracker.use (t : UsageTracker) (id : Owner) : UsageTracker :=
  { users := insert id t.users }

def UsageTracker.release (t : UsageTracker) (id : Owner) : UsageTracker :=
  { users := t.users.erase id }

def UsageTracker.isUsed (t : UsageTracker) : Bool := t.users.card > 0

/-- `HeightLoaderTile`: a usage tracker plus a map from pyramid level to
decoded payload. -/
structure HeightLoaderTile where
  tracker : UsageTracker
  levels : List (Nat × Bitmap)
deriving DecidableEq

def HeightLoaderTile.setLevel (t : HeightLoaderTile) (levelId : Nat)
    (bitmap : Bitmap) : HeightLoaderTile :=
  { t with levels := setAssoc t.levels levelId bitmap }

def HeightLoaderTile.getLevel (t : HeightLoaderTile) (levelId : Nat) : Option Bitmap :=
  getAssoc t.levels levelId

/-- A pending load request.  `rid` models JS object identity; each entry of
`waitingList` is one suspended continuation, recorded as the pair of the
caller it resolves and the owner it registers on completion. -/
structure Request where
  rid : Nat
  x : Nat
  y : Nat
  zoom : Nat
  waitingList : List (Nat × Owner)
deriving DecidableEq

def Request.coord (r : Request) : Coord := (r.x, r.y, r.zoom)

/-- `RequestQueue`: a waiting FIFO plus the list of in-flight requests. -/
structure RequestQueue where
  queue : List Request
  queueInProgress : List Request
deriving DecidableEq

def RequestQueue.add (q : RequestQueue) (request : Request) : RequestQueue :=
  { q with queue := q.queue ++ [request] }

def findReq : List Request → Nat → Nat → Nat → Option Request
  | [], _, _, _ => none
  | r :: rest, x, y, zoom =>
      if r.x = x ∧ r.y = y ∧ r.zoom = zoom then some r else findReq rest x y zoom

/-- `RequestQueue.find`: scan the waiting FIFO first, then the in-flight
list, for a coordinate match. -/
def RequestQueue.find (q : RequestQueue) (x y zoom : Nat) : Option Request :=
  match findReq q.queue x y zoom with
  | some r => some r
  | none => findReq q.queueInProgress x y zoom

/-- JS `splice` at `indexOf`: drop the first element with this identity. -/
def removeFirstRid : List Request → Nat → List Request
  | [], _ => []
  | r :: rest, rid => if r.rid = rid then rest else r :: removeFirstRid rest rid

def RequestQueue.remove (q : RequestQueue) (rid : Nat) : RequestQueue :=
  { q with queueInProgress := removeFirstRid q.queueInProgress rid }

def RequestQueue.size (q : RequestQueue) : Nat := q.queue.length

/-- `TerrainHeightLoader` state.  `tiles`, `activeRequests` and `queue` are
the source's fields; `fetches`, `resolved`, `faulted` and `nextRid` are ghost
observation logs (issued fetch coordinates, caller resolutions with the cache
slot they received, a TypeError escaping the fan-out, and the identity
counter). -/
structure TerrainHeightLoader where
  tiles : List (Coord × HeightLoaderTile)
  activeRequests : List Request
  queue : RequestQueue
  fetches : List Coord
  resolved : List (Nat × Coord)
  faulted : Bool
  nextRid : Nat
deriving DecidableEq

def maxConcurrentRequests : Nat := 2

def initState : TerrainHeightLoader :=
  { tiles := [], activeRequests := [], queue := ⟨[], []⟩, fetches := [],
    resolved := [], faulted := false, nextRid := 0 }

def getTile (s : TerrainHeightLoader) (x y zoom : Nat) : Option HeightLoaderTile :=
  getAssoc s.tiles (x, y, zoom)

def getBitmap (s : TerrainHeightLoader) (x y zoom level : Nat) : Option Bitmap :=
  match getTile s x y zoom with
  | none => none
  | some tile => tile.getLevel level

/-- Push one more waiting continuation onto the request with identity `rid`
(the JS mutation of the shared `Request` object, applied to every collection
holding it). -/
def pushWaiter (rid caller owner : Nat) (l : List Request) : List Request :=
  l.map fun r =>
    if r.rid = rid then { r with waitingList := r.waitingList ++ [(caller, owner)] } else r

/-- `TerrainHeightLoader.getOrLoadTile`: cache hit registers the owner and
resolves at once; cache miss coalesces onto an existing request found by
coordinate or enqueues a fresh one. -/
def getOrLoadTile (s : TerrainHeightLoader) (x y zoom : Nat)
    (owner caller : Nat) : TerrainHeightLoader :=
  match getTile s x y zoom with
  | some tile =>
      { s with
        tiles := setAssoc s.tiles (x, y, zoom) { tile with tracker := tile.tracker.use owner }
        resolved := s.resolved ++ [(caller, (x, y, zoom))] }
  | none =>
      match s.queue.find x y zoom with
      | some request =>
          { s with
            activeRequests := pushWaiter request.rid caller owner s.activeRequests
            queue := ⟨pushWaiter request.rid caller owner s.queue.queue,
                      pushWaiter request.rid caller owner s.queue.queueInProgress⟩ }
      | none =>
          { s with
            queue := s.queue.add ⟨s.nextRid, x, y, zoom, [(caller, owner)]⟩
            nextRid := s.nextRid + 1 }

/-- `TerrainHeightLoader.addBitmap`: store a payload as the given pyramid
level of the tile at the coordinate, creating the tile if absent. -/
def addBitmap (s : TerrainHeightLoader) (bitmap : Bitmap)
    (x y zoom level : Nat) : TerrainHeightLoader :=
  { s with
    tiles := setAssoc s.tiles (x, y, zoom)
      ((match getTile s x y zoom with
        | some tile => tile
        | none => (⟨⟨∅⟩, []⟩ : HeightLoaderTile)).setLevel level bitmap) }

/-- The downscale loop of `TerrainHeightLoader.load`: for each `i` below
`times`, store the half-resolution payload as level `i + 1` of the tile at
`(x / 2 ^ i, y / 2 ^ i, zoom)`. -/
def loadLevels (s : TerrainHeightLoader) (decoded : Bitmap)
    (x y zoom times : Nat) : TerrainHeightLoader :=
  (List.range times).foldl
    (fun acc i => addBitmap acc decoded.downscale (x / 2 ^ i) (y / 2 ^ i) zoom (i + 1)) s

/-- `TerrainHeightLoader.load` as a state transform, given the outcome of the
network fetch: `none` models a non-200 status (early return, nothing stored),
`some decoded` models a 200 response whose body decoded to `decoded`. -/
def load (s : TerrainHeightLoader) (x y zoom times : Nat)
    (outcome : Option Bitmap) : TerrainHeightLoader :=
  match outcome with
  | none => s
  | some decoded => loadLevels (addBitmap s decoded x y zoom 0) decoded x y zoom times

/-- The admission loop of `TerrainHeightLoader.processQueue`: while the
waiting FIFO is non-empty and the in-flight count is below the cap, pop the
FIFO head, move it in-flight and issue its fetch. -/
def processQueueAux : Nat → TerrainHeightLoader → TerrainHeightLoader
  | 0, s => s
  | fuel + 1, s =>
      match s.queue.queue with
      | [] => s
      | task :: rest =>
          if s.activeRequests.length < maxConcurrentRequests then
            processQueueAux fuel
              { s with
                queue := ⟨rest, s.queue.queueInProgress ++ [task]⟩
                activeRequests := s.activeRequests ++ [task]
                fetches := s.fetches ++ [(task.x, task.y, task.zoom)] }
          else s

def processQueue (s : TerrainHeightLoader) : TerrainHeightLoader :=
  processQueueAux s.queue.size s

def removeUnusedTiles (s : TerrainHeightLoader) : TerrainHeightLoader :=
  { s with tiles := s.tiles.filter fun p => p.2.tracker.isUsed }

/-- `TerrainHeightLoader.update`: eviction pass, then admission pass. -/
def update (s : TerrainHeightLoader) : TerrainHeightLoader :=
  processQueue (removeUnusedTiles s)

/-- Fan-out of a completed request over its waiting continuations, in order.
Each continuation re-reads the cache, registers its owner and resolves its
caller; if the tile is absent the continuation dereferences `null`
(`tile.tracker.use`), the TypeError aborts the fan-out loop and no further
continuation runs or resolves. -/
def runWaiters : TerrainHeightLoader → Nat → Nat → Nat → List (Nat × Owner) →
    TerrainHeightLoader
  | s, _, _, _, [] => s
  | s, x, y, zoom, (caller, owner) :: rest =>
      match getTile s x y zoom with
      | some tile =>
          runWaiters
            { s with
              tiles := setAssoc s.tiles (x, y, zoom) { tile with tracker := tile.tracker.use owner }
              resolved := s.resolved ++ [(caller, (x, y, zoom))] }
            x y zoom rest
      | none => { s with faulted := true }

def findRid : List Request → Nat → Option Request
  | [], _ => none
  | r :: rest, rid => if r.rid = rid then some r else findRid rest rid

/-- Completion of the fetch pipeline launched for the in-flight request with
identity `rid` (the continuation attached in `processQueue`): run the `load`
store phase with the fetch outcome, retire the request from the in-flight
collections, then invoke every waiting continuation. -/
def completeRequest (s : TerrainHeightLoader) (rid : Nat)
    (outcome : Option Bitmap) : TerrainHeightLoader :=
  match findRid s.activeRequests rid with
  | none => s
  | some task =>
      let s1 := load s task.x task.y task.zoom 1 outcome
      let s2 := { s1 with
                  activeRequests := removeFirstRid s1.activeRequests rid
                  queue := s1.queue.remove rid }
      runWaiters s2 task.x task.y task.zoom task.waitingList

/-- States reachable from the fresh loader by the public operations and
pipeline completions. -/
inductive Reachable : TerrainHeightLoader → Prop
  | init : Reachable initState
  | getOrLoad (s : TerrainHeightLoader) (x y zoom owner caller : Nat) :
      Reachable s → Reachable (getOrLoadTile s x y zoom owner caller)
  | tick (s : TerrainHeightLoader) : Reachable s → Reachable (update s)
  | complete (s : TerrainHeightLoader) (rid : Nat) (outcome : Option Bitmap) :
      Reachable s → Reachable (completeRequest s rid outcome)

/-- Keys of an association list are pairwise distinct. -/
def keysNodup {α β : Type} (m : List (α × β)) : Prop := (m.map Prod.fst).Nodup

/-- Number of waiting requests that one admission pass moves in-flight. -/
def admitCount (s : TerrainHeightLoader) : Nat :=
  min s.queue.size (maxConcurrentRequests - s.activeRequests.length)

/-- Coordinates of all live requests, waiting FIFO first, then in-flight. -/
def requestCoords (s : TerrainHeightLoader) : List Coord :=
  (s.queue.queue ++ s.queue.queueInProgress).map Request.coord

/-! ### Association-list lemmas -/

theorem getAssoc_setAssoc_self {α β : Type} [DecidableEq α] (m : List (α × β)) (k : α) (v : β) :
    getAssoc (setAssoc m k v) k = some v := by
  induction m with
  | nil => simp [getAssoc, setAssoc]
  | cons p rest ih =>
      obtain ⟨k', v'⟩ := p
      by_cases h : k' = k
      · simp [getAssoc, setAssoc, h]
      · simp [getAssoc, setAssoc, h, ih]

theorem getAssoc_setAssoc_ne {α β : Type} [DecidableEq α] (m : List (α × β)) (k k' : α) (v : β)
    (h : k' ≠ k) : getAssoc (setAssoc m k' v) k = getAssoc m k := by
  induction m with
  | nil => simp [getAssoc, setAssoc, h]
  | cons p rest ih =>
      obtain ⟨k₀, v₀⟩ := p
      by_cases h₀ : k₀ = k'
      · subst h₀
        simp [getAssoc, setAssoc, h]
      · simp [getAssoc, setAssoc, h₀, ih]

theorem getAssoc_eq_none_of_not_mem_keys {α β : Type} [DecidableEq α] (m : List (α × β))
    (k : α) (h : k ∉ m.map Prod.fst) : getAssoc m k = none := by
  induction m with
  | nil => rfl
  | cons p rest ih =>
      obtain ⟨k', v'⟩ := p
      simp only [List.map_cons, List.mem_cons] at h
      have hne : k' ≠ k := fun hh => h (Or.inl hh.symm)
      simp only [getAssoc, hne, if_false]
      exact ih fun hm => h (Or.inr hm)

theorem getAssoc_eq_none_filter {α β : Type} [DecidableEq α] (m : List (α × β))
    (p : α × β → Bool) (k : α) (h : getAssoc m k = none) :
    getAssoc (m.filter p) k = none := by
  induction m with
  | nil => simp [getAssoc]
  | cons q rest ih =>
      obtain ⟨k', v'⟩ := q
      by_cases hk : k' = k
      · simp [getAssoc, hk] at h
      · simp only [getAssoc, hk, if_false] at h
        by_cases hp : p (k', v')
        · simp [List.filter_cons, hp, getAssoc, hk, ih h]
        · simp [List.filter_cons, hp, ih h]

theorem getAssoc_filter {α β : Type} [DecidableEq α] (m : List (α × β))
    (p : α × β → Bool) (k : α) (h : keysNodup m) :
    getAssoc (m.filter p) k =
      (getAssoc m k).bind fun v => if p (k, v) then some v else none := by
  induction m with
  | nil => simp [getAssoc]
  | cons q rest ih =>
      obtain ⟨k', v'⟩ := q
      simp only [keysNodup, List.map_cons, List.nodup_cons] at h
      by_cases hk : k' = k
      · subst hk
        have hnone : getAssoc rest k' = none := getAssoc_eq_none_of_not_mem_keys rest k' h.1
        by_cases hpv : p (k', v')
        · simp [List.filter_cons, hpv, getAssoc]
        · simp [List.filter_cons, hpv, getAssoc, hpv,
            getAssoc_eq_none_filter rest p k' hnone]
      · have ih2 := ih h.2
        by_cases hpv : p (k', v')
        · simp [List.filter_cons, hpv, getAssoc, hk, ih2]
        · simp [List.filter_cons, hpv, getAssoc, hk, ih2]

/-! ### Frame lemmas -/

theorem removeFirstRid_sublist (l : List Request) (rid : Nat) :
    List.Sublist (removeFirstRid l rid) l := by
  induction l with
  | nil => simp [removeFirstRid]
  | cons r rest ih =>
      by_cases h : r.rid = rid
      · simp [removeFirstRid, h]
      · simpa [removeFirstRid, h] using ih.cons₂ r

theorem removeFirstRid_length_le (l : List Request) (rid : Nat) :
    (removeFirstRid l rid).length ≤ l.length :=
  (removeFirstRid_sublist l rid).length_le

theorem pushWaiter_length (rid caller owner : Nat) (l : List Request) :
    (pushWaiter rid caller owner l).length = l.length := by
  simp [pushWaiter]

theorem pushWaiter_coords (rid caller owner : Nat) (l : List Request) :
    (pushWaiter rid caller owner l).map Request.coord = l.map Request.coord := by
  simp only [pushWaiter, List.map_map]
  apply List.map_congr_left
  intro r _
  by_cases h : r.rid = rid <;> simp [h, Request.coord]

theorem loadLevels_frame {α : Type} (f : TerrainHeightLoader → α)
    (hf : ∀ s b x y zoom level, f (addBitmap s b x y zoom level) = f s)
    (s : TerrainHeightLoader) (d : Bitmap) (x y zoom n : Nat) :
    f (loadLevels s d x y zoom n) = f s := by
  unfold loadLevels
  generalize List.range n = l
  induction l generalizing s with
  | nil => rfl
  | cons a l ih => rw [List.foldl_cons, ih, hf]

theorem load_frame {α : Type} (f : TerrainHeightLoader → α)
    (hf : ∀ s b x y zoom level, f (addBitmap s b x y zoom level) = f s)
    (s : TerrainHeightLoader) (x y zoom n : Nat) (outcome : Option Bitmap) :
    f (load s x y zoom n outcome) = f s := by
  cases outcome with
  | none => rfl
  | some d =>
      show f (loadLevels (addBitmap s d x y zoom 0) d x y zoom n) = f s
      rw [loadLevels_frame f hf, hf]

theorem runWaiters_activeRequests (l : List (Nat × Owner)) :
    ∀ (s : TerrainHeightLoader) (x y zoom : Nat),
    (runWaiters s x y zoom l).activeRequests = s.activeRequests := by
  induction l with
  | nil => intro s x y zoom; rfl
  | cons p rest ih =>
      intro s x y zoom
      obtain ⟨caller, owner⟩ := p
      cases h : getTile s x y zoom with
      | some tile => simp [runWaiters, h, ih]
      | none => simp [runWaiters, h]

theorem runWaiters_queue (l : List (Nat × Owner)) :
    ∀ (s : TerrainHeightLoader) (x y zoom : Nat),
    (runWaiters s x y zoom l).queue = s.queue := by
  induction l with
  | nil => intro s x y zoom; rfl
  | cons p rest ih =>
      intro s x y zoom
      obtain ⟨caller, owner⟩ := p
      cases h : getTile s x y zoom with
      | some tile => simp [runWaiters, h, ih]
      | none => simp [runWaiters, h]

theorem runWaiters_fetches (l : List (Nat × Owner)) :
    ∀ (s : TerrainHeightLoader) (x y zoom : Nat),
    (runWaiters s x y zoom l).fetches = s.fetches := by
  induction l with
  | nil => intro s x y zoom; rfl
  | cons p rest ih =>
      intro s x y zoom
      obtain ⟨caller, owner⟩ := p
      cases h : getTile s x y zoom with
      | some tile => simp [runWaiters, h, ih]
      | none => simp [runWaiters, h]

theorem processQueueAux_frame {α : Type} (f : TerrainHeightLoader → α)
    (hf : ∀ (s : TerrainHeightLoader) (q : RequestQueue) (a : List Request) (fe : List Coord),
      f { s with queue := q, activeRequests := a, fetches := fe } = f s) :
    ∀ (fuel : Nat) (s : TerrainHeightLoader), f (processQueueAux fuel s) = f s := by
  intro fuel
  induction fuel with
  | zero => intro s; rfl
  | succ n ih =>
      intro s
      unfold processQueueAux
      cases hq : s.queue.queue with
      | nil => rfl
      | cons task rest =>
          by_cases hc : s.activeRequests.length < maxConcurrentRequests
          · simp only [hc, if_true]
            rw [ih, hf]
          · simp only [hc, if_false]

theorem processQueueAux_spec :
    ∀ (fuel : Nat) (s : TerrainHeightLoader), s.queue.queue.length ≤ fuel →
    processQueueAux fuel s =
      { s with
        queue := ⟨s.queue.queue.drop (admitCount s),
                  s.queue.queueInProgress ++ s.queue.queue.take (admitCount s)⟩
        activeRequests := s.activeRequests ++ s.queue.queue.take (admitCount s)
        fetches := s.fetches ++ (s.queue.queue.take (admitCount s)).map Request.coord } := by
  intro fuel
  induction fuel with
  | zero =>
      intro s h
      obtain ⟨ti, ar, ⟨qq, qip⟩, fe, re, fa, nr⟩ := s
      have hq : qq = [] := List.eq_nil_of_length_eq_zero (Nat.le_zero.mp h)
      subst hq
      simp [processQueueAux, admitCount, RequestQueue.size]
  | succ n ih =>
      intro s h
      obtain ⟨ti, ar, ⟨qq, qip⟩, fe, re, fa, nr⟩ := s
      cases qq with
      | nil => simp [processQueueAux, admitCount, RequestQueue.size]
      | cons task rest =>
          by_cases hc : ar.length < maxConcurrentRequests
          · have hlen : rest.length ≤ n := by
              simp only [List.length_cons] at h
              omega
            have hstep : processQueueAux (n + 1) ⟨ti, ar, ⟨task :: rest, qip⟩, fe, re, fa, nr⟩ =
                processQueueAux n ⟨ti, ar ++ [task], ⟨rest, qip ++ [task]⟩,
                  fe ++ [(task.x, task.y, task.zoom)], re, fa, nr⟩ := by
              simp [processQueueAux, hc]
            rw [hstep, ih _ hlen]
            have hk : min (rest.length + 1) (maxConcurrentRequests - ar.length)
                = min rest.length (maxConcurrentRequests - (ar.length + 1)) + 1 := by
              omega
            simp only [admitCount, RequestQueue.size, List.length_append,
              List.length_cons, List.length_nil, List.length_singleton, Nat.zero_add, hk,
              List.take_succ_cons, List.drop_succ_cons, List.map_cons, Request.coord,
              List.append_assoc, List.singleton_append]
          · have hz : maxConcurrentRequests - ar.length = 0 :=
              Nat.sub_eq_zero_of_le (Nat.le_of_not_lt hc)
            simp [processQueueAux, hc, admitCount, RequestQueue.size, hz]

theorem processQueue_spec (s : TerrainHeightLoader) :
    processQueue s =
      { s with
        queue := ⟨s.queue.queue.drop (admitCount s),
                  s.queue.queueInProgress ++ s.queue.queue.take (admitCount s)⟩
        activeRequests := s.activeRequests ++ s.queue.queue.take (admitCount s)
        fetches := s.fetches ++ (s.queue.queue.take (admitCount s)).map Request.coord } :=
  processQueueAux_spec s.queue.size s le_rfl

/-! ### In-flight count and coalescing lemmas -/

theorem getOrLoadTile_activeRequests_length (s : TerrainHeightLoader)
    (x y zoom owner caller : Nat) :
    (getOrLoadTile s x y zoom owner caller).activeRequests.length
      = s.activeRequests.length := by
  unfold getOrLoadTile
  cases h : getTile s x y zoom with
  | some tile => rfl
  | none =>
      cases h2 : s.queue.find x y zoom with
      | some request => simp [pushWaiter_length]
      | none => rfl

theorem completeRequest_activeRequests_length_le (s : TerrainHeightLoader)
    (rid : Nat) (outcome : Option Bitmap) :
    (completeRequest s rid outcome).activeRequests.length
      ≤ s.activeRequests.length := by
  unfold completeRequest
  cases h : findRid s.activeRequests rid with
  | none => exact le_rfl
  | some task =>
      simp only [runWaiters_activeRequests]
      calc (removeFirstRid (load s task.x task.y task.zoom 1 outcome).activeRequests
              rid).length
          ≤ (load s task.x task.y task.zoom 1 outcome).activeRequests.length :=
            removeFirstRid_length_le _ _
        _ = s.activeRequests.length := by
            rw [load_frame (fun st => st.activeRequests) (fun _ _ _ _ _ _ => rfl)]

/-- C2: for every reachable loader state, the number of in-flight requests
never exceeds the configured concurrency cap, whose reference value is
`maxConcurrentRequests = 2`. -/
theorem inflight_request_cap (s : TerrainHeightLoader) (h : Reachable s) :
    s.activeRequests.length ≤ maxConcurrentRequests := by
  induction h with
  | init => simp [initState]
  | getOrLoad s x y zoom owner caller hr ih =>
      rw [getOrLoadTile_activeRequests_length]
      exact ih
  | tick s hr ih =>
      unfold update
      rw [processQueue_spec (removeUnusedTiles s)]
      simp only [List.length_append, List.length_take, admitCount, RequestQueue.size]
      have hra : (removeUnusedTiles s).activeRequests = s.activeRequests := rfl
      have hrq : (removeUnusedTiles s).queue = s.queue := rfl
      rw [hra, hrq]
      simp only [maxConcurrentRequests] at ih ⊢
      omega
  | complete s rid outcome hr ih =>
      exact le_trans (completeRequest_activeRequests_length_le s rid outcome) ih

theorem inflight_request_cap_witness :
    (update (getOrLoadTile initState 1 2 3 7 0)).activeRequests.length
      ≤ maxConcurrentRequests :=
  inflight_request_cap _
    (Reachable.tick _ (Reachable.getOrLoad _ 1 2 3 7 0 Reachable.init))

/-- C9: one admission pass (the `processQueue` phase of `update`) moves
exactly the first `admitCount` waiting requests of the FIFO in-flight, in
arrival order: afterwards the in-flight list has gained precisely the FIFO
prefix of that length, the waiting FIFO keeps exactly the matching suffix,
and exactly those requests had their fetches issued, in FIFO order.  In
particular no waiting request is admitted before an earlier-enqueued one. -/
theorem fifo_admission (s : TerrainHeightLoader) :
    (update s).activeRequests
        = s.activeRequests ++ s.queue.queue.take (admitCount s)
    ∧ (update s).queue.queue = s.queue.queue.drop (admitCount s)
    ∧ (update s).queue.queueInProgress
        = s.queue.queueInProgress ++ s.queue.queue.take (admitCount s)
    ∧ (update s).fetches
        = s.fetches ++ (s.queue.queue.take (admitCount s)).map Request.coord := by
  unfold update
  rw [processQueue_spec (removeUnusedTiles s)]
  exact ⟨rfl, rfl, rfl, rfl⟩

theorem findReq_none_coord (l : List Request) (x y zoom : Nat)
    (h : findReq l x y zoom = none) :
    ((x, y, zoom) : Coord) ∉ l.map Request.coord := by
  induction l with
  | nil => simp
  | cons r rest ih =>
      by_cases hm : r.x = x ∧ r.y = y ∧ r.zoom = zoom
      · simp [findReq, hm] at h
      · simp only [findReq, hm, if_false] at h
        intro hmem
        simp only [List.map_cons, List.mem_cons] at hmem
        rcases hmem with hc | hmem
        · apply hm
          simp only [Request.coord, Prod.ext_iff] at hc
          exact ⟨hc.1.symm, hc.2.1.symm, hc.2.2.symm⟩
        · exact ih h hmem

theorem find_eq_none_parts (q : RequestQueue) (x y zoom : Nat)
    (h : q.find x y zoom = none) :
    findReq q.queue x y zoom = none ∧ findReq q.queueInProgress x y zoom = none := by
  unfold RequestQueue.find at h
  cases h3 : findReq q.queue x y zoom with
  | some r => rw [h3] at h; exact absurd h (by simp)
  | none => rw [h3] at h; exact ⟨rfl, h⟩

theorem requestCoords_getOrLoadTile (s : TerrainHeightLoader)
    (x y zoom owner caller : Nat) (h : (requestCoords s).Nodup) :
    (requestCoords (getOrLoadTile s x y zoom owner caller)).Nodup := by
  unfold getOrLoadTile
  cases h1 : getTile s x y zoom with
  | some tile => exact h
  | none =>
      cases h2 : s.queue.find x y zoom with
      | some request =>
          unfold requestCoords
          simp only [List.map_append, pushWaiter_coords]
          simpa [requestCoords, List.map_append] using h
      | none =>
          obtain ⟨hq, hip⟩ := find_eq_none_parts s.queue x y zoom h2
          have h4 := findReq_none_coord _ _ _ _ hq
          have h5 := findReq_none_coord _ _ _ _ hip
          unfold requestCoords RequestQueue.add
          simp only [List.map_append, List.map_cons, List.map_nil, Request.coord,
            List.append_assoc, List.singleton_append]
          rw [List.nodup_middle]
          refine List.Nodup.cons ?_ ?_
          · intro hmem
            rcases List.mem_append.mp hmem with hm | hm
            · exact h4 hm
            · exact h5 hm
          · simpa [requestCoords, List.map_append] using h

theorem requestCoords_update (s : TerrainHeightLoader)
    (h : (requestCoords s).Nodup) : (requestCoords (update s)).Nodup := by
  unfold update
  rw [processQueue_spec (removeUnusedTiles s)]
  unfold requestCoords
  simp only []
  have hperm : List.Perm
      (s.queue.queue.drop (admitCount s)
        ++ (s.queue.queueInProgress ++ s.queue.queue.take (admitCount s)))
      (s.queue.queue ++ s.queue.queueInProgress) := by
    have p1 : List.Perm
        (s.queue.queueInProgress ++ s.queue.queue.take (admitCount s))
        (s.queue.queue.take (admitCount s) ++ s.queue.queueInProgress) :=
      List.perm_append_comm
    have p2 := List.Perm.append_left (s.queue.queue.drop (admitCount s)) p1
    refine p2.trans ?_
    rw [← List.append_assoc]
    have p3 : List.Perm
        (s.queue.queue.drop (admitCount s) ++ s.queue.queue.take (admitCount s))
        (s.queue.queue.take (admitCount s) ++ s.queue.queue.drop (admitCount s)) :=
      List.perm_append_comm
    have p4 := List.Perm.append_right s.queue.queueInProgress p3
    refine p4.trans ?_
    rw [List.take_append_drop]
  exact ((hperm.symm).map Request.coord).nodup h

theorem requestCoords_completeRequest (s : TerrainHeightLoader)
    (rid : Nat) (outcome : Option Bitmap) (h : (requestCoords s).Nodup) :
    (requestCoords (completeRequest s rid outcome)).Nodup := by
  unfold completeRequest
  cases h1 : findRid s.activeRequests rid with
  | none => exact h
  | some task =>
      simp only []
      unfold requestCoords
      rw [runWaiters_queue]
      have hlq : (load s task.x task.y task.zoom 1 outcome).queue = s.queue :=
        load_frame (fun st => st.queue) (fun _ _ _ _ _ _ => rfl) _ _ _ _ _ _
      simp only [RequestQueue.remove, hlq]
      have hsub : List.Sublist
          (s.queue.queue ++ removeFirstRid s.queue.queueInProgress rid)
          (s.queue.queue ++ s.queue.queueInProgress) :=
        List.Sublist.append_left (removeFirstRid_sublist _ _) _
      exact (hsub.map Request.coord).nodup h

/-- C4: at every reachable instant, at most one `Request` per coordinate
exists across the waiting FIFO and the in-flight set: the coordinates of all
live requests are pairwise distinct, and every loader operation
(`getOrLoadTile`, `update`, pipeline completion) preserves this. -/
theorem one_request_per_coordinate (s : TerrainHeightLoader) (h : Reachable s) :
    (requestCoords s).Nodup := by
  induction h with
  | init => simp [requestCoords, initState]
  | getOrLoad s x y zoom owner caller hr ih =>
      exact requestCoords_getOrLoadTile s x y zoom owner caller ih
  | tick s hr ih => exact requestCoords_update s ih
  | complete s rid outcome hr ih => exact requestCoords_completeRequest s rid outcome ih

theorem one_request_per_coordinate_witness :
    (requestCoords (getOrLoadTile (getOrLoadTile initState 1 2 3 7 0) 1 2 3 8 1)).Nodup :=
  one_request_per_coordinate _
    (Reachable.getOrLoad _ 1 2 3 8 1 (Reachable.getOrLoad _ 1 2 3 7 0 Reachable.init))

/-- C5: the decode transform maps each pixel's channels (R, G, B) to the
elevation sample `-10000 + (R*65536 + G*256 + B) * 0.1`; for the pixel
R=0, G=39, B=16 the decoded sample is -9000. -/
theorem decode_transform (w h : Nat) (pixels : List (Nat × Nat × Nat))
    (i r g b : Nat) (hp : pixels[i]? = some (r, g, b)) :
    ((decodeBitmap w h pixels).data)[i]?
        = some (-10000 + ((r * 65536 + g * 256 + b : Nat) : ℚ) * 0.1)
    ∧ ((decodeBitmap 1 1 [(0, 39, 16)]).data)[0]? = some ((-9000 : ℚ)) := by
  constructor
  · simp [decodeBitmap, List.getElem?_map, hp]
    ring_nf
    exact Or.inl trivial
  · norm_num [decodeBitmap, List.getElem?_cons_zero]

theorem decode_transform_witness :
    ((decodeBitmap 1 1 [(0, 39, 16)]).data)[0]?
      = some (-10000 + ((0 * 65536 + 39 * 256 + 16 : Nat) : ℚ) * 0.1) :=
  (decode_transform 1 1 [(0, 39, 16)] 0 0 39 16 rfl).1

/-- C7: `UsageTracker.use` and `UsageTracker.release` are idempotent, and
releasing an absent owner is a no-op. -/
theorem tracker_idempotence (t : UsageTracker) (o : Owner) :
    (t.use o).use o = t.use o
    ∧ (t.release o).release o = t.release o
    ∧ (o ∉ t.users → t.release o = t) := by
  refine ⟨?_, ?_, ?_⟩
  · simp [UsageTracker.use]
  · simp [UsageTracker.release, Finset.erase_idem]
  · intro h
    simp [UsageTracker.release, Finset.erase_eq_of_not_mem h]

theorem tracker_idempotence_witness :
    ((0 : Owner) ∉ (⟨∅⟩ : UsageTracker).users)
    ∧ (⟨∅⟩ : UsageTracker).release 0 = ⟨∅⟩ :=
  ⟨by decide, (tracker_idempotence ⟨∅⟩ 0).2.2 (by decide)⟩

theorem update_tiles (s : TerrainHeightLoader) :
    (update s).tiles = s.tiles.filter fun p => p.2.tracker.isUsed :=
  processQueueAux_frame (fun st => st.tiles) (fun _ _ _ _ => rfl) _ _

/-- C6: a tracker reports unused exactly when its owner set is empty, and an
`update` pass evicts exactly the unused tiles: afterwards a coordinate still
holds a tile precisely when it held that tile before and the tile was in
use; in particular once the last owner has released, the next `update`
makes the coordinate read absent. -/
theorem eviction_exact :
    (∀ t : UsageTracker, t.isUsed = false ↔ t.users = ∅)
    ∧ (∀ (s : TerrainHeightLoader), keysNodup s.tiles → ∀ x y zoom,
        getTile (update s) x y zoom
          = (getTile s x y zoom).bind fun t =>
              if t.tracker.isUsed then some t else none)
    ∧ (∀ (s : TerrainHeightLoader), keysNodup s.tiles → ∀ x y zoom t,
        getTile s x y zoom = some t → t.tracker.users = ∅ →
        getTile (update s) x y zoom = none) := by
  have hiff : ∀ t : UsageTracker, t.isUsed = false ↔ t.users = ∅ := by
    intro t
    simp [UsageTracker.isUsed, Finset.card_eq_zero]
  have hupd : ∀ (s : TerrainHeightLoader), keysNodup s.tiles → ∀ x y zoom,
      getTile (update s) x y zoom
        = (getTile s x y zoom).bind fun t =>
            if t.tracker.isUsed then some t else none := by
    intro s hs x y zoom
    show getAssoc (update s).tiles (x, y, zoom) = _
    rw [update_tiles]
    exact getAssoc_filter s.tiles (fun p => p.2.tracker.isUsed) (x, y, zoom) hs
  refine ⟨hiff, hupd, ?_⟩
  intro s hs x y zoom t ht hempty
  rw [hupd s hs x y zoom, ht]
  have : t.tracker.isUsed = false := (hiff t.tracker).mpr hempty
  simp [this]

theorem eviction_exact_witness :
    keysNodup (addBitmap initState ⟨1, 1, [0]⟩ 0 0 0 0).tiles
    ∧ getTile (addBitmap initState ⟨1, 1, [0]⟩ 0 0 0 0) 0 0 0
        = some (⟨⟨∅⟩, [(0, ⟨1, 1, [0]⟩)]⟩ : HeightLoaderTile)
    ∧ ((⟨⟨∅⟩, [(0, ⟨1, 1, [0]⟩)]⟩ : HeightLoaderTile).tracker.users = ∅)
    ∧ getTile (update (addBitmap initState ⟨1, 1, [0]⟩ 0 0 0 0)) 0 0 0 = none := by
  refine ⟨?_, by decide, by decide, ?_⟩
  · unfold keysNodup
    decide
  · exact eviction_exact.2.2 (addBitmap initState ⟨1, 1, [0]⟩ 0 0 0 0)
      (by unfold keysNodup; decide) 0 0 0
      (⟨⟨∅⟩, [(0, ⟨1, 1, [0]⟩)]⟩ : HeightLoaderTile) (by decide) (by decide)

theorem getBitmap_addBitmap_same (s : TerrainHeightLoader) (b : Bitmap)
    (x y zoom level : Nat) :
    getBitmap (addBitmap s b x y zoom level) x y zoom level = some b := by
  have h1 : getTile (addBitmap s b x y zoom level) x y zoom
      = some ((match getTile s x y zoom with
               | some tile => tile
               | none => (⟨⟨∅⟩, []⟩ : HeightLoaderTile)).setLevel level b) := by
    show getAssoc (setAssoc s.tiles (x, y, zoom) _) (x, y, zoom) = _
    exact getAssoc_setAssoc_self _ _ _
  unfold getBitmap
  rw [h1]
  show getAssoc (setAssoc _ level b) level = some b
  exact getAssoc_setAssoc_self _ _ _

theorem getBitmap_addBitmap_ne_level (s : TerrainHeightLoader) (b : Bitmap)
    (x' y' z' x y zoom level' level : Nat) (h : level' ≠ level) :
    getBitmap (addBitmap s b x' y' z' level') x y zoom level
      = getBitmap s x y zoom level := by
  by_cases hk : ((x', y', z') : Coord) = (x, y, zoom)
  · obtain ⟨hx, hy, hz⟩ : x' = x ∧ y' = y ∧ z' = zoom := by
      simpa [Prod.ext_iff] using hk
    rw [hx, hy, hz]
    have h1 : getTile (addBitmap s b x y zoom level') x y zoom
        = some ((match getTile s x y zoom with
                 | some tile => tile
                 | none => (⟨⟨∅⟩, []⟩ : HeightLoaderTile)).setLevel level' b) := by
      show getAssoc (setAssoc s.tiles (x, y, zoom) _) (x, y, zoom) = _
      exact getAssoc_setAssoc_self _ _ _
    unfold getBitmap
    rw [h1]
    cases h2 : getTile s x y zoom with
    | some tile =>
        show getAssoc (setAssoc tile.levels level' b) level = _
        exact getAssoc_setAssoc_ne _ _ _ _ h
    | none =>
        show getAssoc (setAssoc ([] : List (Nat × Bitmap)) level' b) level = _
        rw [getAssoc_setAssoc_ne _ _ _ _ h]
        rfl
  · have h1 : getTile (addBitmap s b x' y' z' level') x y zoom = getTile s x y zoom := by
      show getAssoc (setAssoc s.tiles (x', y', z') _) (x, y, zoom) = _
      exact getAssoc_setAssoc_ne _ _ _ _ hk
    unfold getBitmap
    rw [h1]

theorem loadLevels_step (s : TerrainHeightLoader) (d : Bitmap) (x y zoom n : Nat) :
    loadLevels s d x y zoom (n + 1)
      = addBitmap (loadLevels s d x y zoom n) d.downscale
          (x / 2 ^ n) (y / 2 ^ n) zoom (n + 1) := by
  unfold loadLevels
  rw [List.range_succ, List.foldl_append, List.foldl_cons, List.foldl_nil]

theorem loadLevels_level0 (s : TerrainHeightLoader) (d : Bitmap) (x y zoom : Nat) :
    ∀ n, getBitmap (loadLevels s d x y zoom n) x y zoom 0 = getBitmap s x y zoom 0 := by
  intro n
  induction n with
  | zero => rfl
  | succ n ih =>
      rw [loadLevels_step,
        getBitmap_addBitmap_ne_level _ _ _ _ _ _ _ _ (n + 1) 0 (by omega), ih]

theorem loadLevels_levels (s : TerrainHeightLoader) (d : Bitmap) (x y zoom : Nat) :
    ∀ n i, i < n →
    getBitmap (loadLevels s d x y zoom n) (x / 2 ^ i) (y / 2 ^ i) zoom (i + 1)
      = some d.downscale := by
  intro n
  induction n with
  | zero => intro i hi; omega
  | succ n ih =>
      intro i hi
      rw [loadLevels_step]
      rcases Nat.lt_succ_iff_lt_or_eq.mp hi with hlt | heq
      · rw [getBitmap_addBitmap_ne_level _ _ _ _ _ _ _ _ (n + 1) (i + 1) (by omega)]
        exact ih i hlt
      · subst heq
        exact getBitmap_addBitmap_same _ _ _ _ _ _

/-- C8: after a successful `load(x, y, zoom, n)`, for each `i < n` the
pipeline has stored the half-resolution downsample of the decoded raster as
pyramid level `i + 1` of the tile at `(x / 2 ^ i, y / 2 ^ i, zoom)`
(creating that tile if absent); the stored payload has half the source's
width and height; and with the reference value `n = 1` the single downscale
pass stores level 1 on the same coordinate `(x, y, zoom)` as level 0. -/
theorem downscale_pyramid (s : TerrainHeightLoader) (x y zoom n : Nat) (bm : Bitmap) :
    (∀ i, i < n →
      getBitmap (load s x y zoom n (some bm)) (x / 2 ^ i) (y / 2 ^ i) zoom (i + 1)
        = some bm.downscale)
    ∧ bm.downscale.width = bm.width / 2
    ∧ bm.downscale.height = bm.height / 2
    ∧ getBitmap (load s x y zoom 1 (some bm)) x y zoom 1 = some bm.downscale
    ∧ getBitmap (load s x y zoom 1 (some bm)) x y zoom 0 = some bm := by
  refine ⟨?_, rfl, rfl, ?_, ?_⟩
  · intro i hi
    show getBitmap (loadLevels (addBitmap s bm x y zoom 0) bm x y zoom n) _ _ _ _ = _
    exact loadLevels_levels _ _ _ _ _ n i hi
  · have h := loadLevels_levels (addBitmap s bm x y zoom 0) bm x y zoom 1 0 (by omega)
    simpa [pow_zero, Nat.div_one] using h
  · show getBitmap (loadLevels (addBitmap s bm x y zoom 0) bm x y zoom 1) x y zoom 0 = some bm
    rw [loadLevels_level0]
    exact getBitmap_addBitmap_same _ _ _ _ _ _

theorem downscale_pyramid_witness :
    (0 < 1)
    ∧ getBitmap (load initState 2 3 1 1 (some ⟨2, 2, [1, 2, 3, 4]⟩))
        (2 / 2 ^ 0) (3 / 2 ^ 0) 1 (0 + 1) = some (Bitmap.downscale ⟨2, 2, [1, 2, 3, 4]⟩) :=
  ⟨by decide, (downscale_pyramid initState 2 3 1 1 ⟨2, 2, [1, 2, 3, 4]⟩).1 0 (by decide)⟩

/-- C1: evaluation at the failing input — one caller coalesced onto the
request for coordinate (0,0,0), admitted by `update`, whose fetch ends with
a non-200 status.  No cache entry is created (`getTile` still reads absent),
as the claim states; but the waiting continuation does not complete without
error: it dereferences the absent tile (`tile.tracker.use` on `null`), the
TypeError aborts the fan-out, and no resolution reaches the caller. -/
theorem load_failure_faults :
    getTile (completeRequest (update (getOrLoadTile initState 0 0 0 5 1)) 0 none) 0 0 0
        = none
    ∧ (completeRequest (update (getOrLoadTile initState 0 0 0 5 1)) 0 none).faulted = true
    ∧ (completeRequest (update (getOrLoadTile initState 0 0 0 5 1)) 0 none).resolved
        = [] := by
  decide

/-- C3: two callers ask for the same uncached coordinate before any fetch
starts; after one admission pass and a successful pipeline completion,
exactly one fetch was issued for that coordinate, both callers are resolved
with the same cache slot (the tile cached at that coordinate, the identical
instance), and both owner identities are registered in that tile's tracker
without either caller invoking `use` itself. -/
theorem coalesced_single_fetch (x y zoom o1 o2 c1 c2 : Nat) (bm : Bitmap) :
    (completeRequest
        (update (getOrLoadTile (getOrLoadTile initState x y zoom o1 c1) x y zoom o2 c2))
        0 (some bm)).fetches = [(x, y, zoom)]
    ∧ (completeRequest
        (update (getOrLoadTile (getOrLoadTile initState x y zoom o1 c1) x y zoom o2 c2))
        0 (some bm)).resolved = [(c1, (x, y, zoom)), (c2, (x, y, zoom))]
    ∧ (completeRequest
        (update (getOrLoadTile (getOrLoadTile initState x y zoom o1 c1) x y zoom o2 c2))
        0 (some bm)).faulted = false
    ∧ ∃ t, getTile (completeRequest
        (update (getOrLoadTile (getOrLoadTile initState x y zoom o1 c1) x y zoom o2 c2))
        0 (some bm)) x y zoom = some t
        ∧ o1 ∈ t.tracker.users ∧ o2 ∈ t.tracker.users := by
  have hs1 : getOrLoadTile initState x y zoom o1 c1
      = ⟨[], [], ⟨[⟨0, x, y, zoom, [(c1, o1)]⟩], []⟩, [], [], false, 1⟩ := rfl
  have hs2 : getOrLoadTile (getOrLoadTile initState x y zoom o1 c1) x y zoom o2 c2
      = ⟨[], [], ⟨[⟨0, x, y, zoom, [(c1, o1), (c2, o2)]⟩], []⟩, [], [], false, 1⟩ := by
    rw [hs1]
    simp [getOrLoadTile, getTile, getAssoc, RequestQueue.find, findReq, pushWaiter,
      RequestQueue.add]
  have hs3 : update (⟨[], [], ⟨[⟨0, x, y, zoom, [(c1, o1), (c2, o2)]⟩], []⟩, [], [], false,
        1⟩ : TerrainHeightLoader)
      = ⟨[], [⟨0, x, y, zoom, [(c1, o1), (c2, o2)]⟩],
          ⟨[], [⟨0, x, y, zoom, [(c1, o1), (c2, o2)]⟩]⟩, [(x, y, zoom)], [], false, 1⟩ := rfl
  have hs4 : completeRequest (⟨[], [⟨0, x, y, zoom, [(c1, o1), (c2, o2)]⟩],
          ⟨[], [⟨0, x, y, zoom, [(c1, o1), (c2, o2)]⟩]⟩, [(x, y, zoom)], [], false,
          1⟩ : TerrainHeightLoader) 0 (some bm)
      = ⟨[((x, y, zoom), ⟨⟨insert o2 (insert o1 ∅)⟩, [(0, bm), (1, bm.downscale)]⟩)],
          [], ⟨[], []⟩, [(x, y, zoom)],
          [(c1, (x, y, zoom)), (c2, (x, y, zoom))], false, 1⟩ := by
    have hr : List.range 1 = [0] := rfl
    simp [completeRequest, findRid, load, loadLevels, addBitmap, getTile, getAssoc,
      setAssoc, HeightLoaderTile.setLevel, RequestQueue.remove, removeFirstRid,
      runWaiters, UsageTracker.use, Nat.div_one, hr, List.foldl_cons,
      List.foldl_nil, pow_zero]
  rw [hs2, hs3, hs4]
  refine ⟨rfl, rfl, rfl,
    ⟨⟨⟨insert o2 (insert o1 ∅)⟩, [(0, bm), (1, bm.downscale)]⟩, ?_, ?_, ?_⟩⟩
  · show getAssoc _ (x, y, zoom) = _
    simp [getAssoc]
  · simp
  · simp

/-- C10: a `getOrLoadTile` call on a cache miss never modifies the tile
cache, never issues a fetch, never resolves any caller, and leaves the
in-flight requests untouched (only their shared waiting lists can grow): it
either appends one waiting continuation to the existing request for that
coordinate, or appends one fresh request to the tail of the waiting FIFO.
Pipeline completions issue no fetches either, so fetches are launched
exclusively by the admission pass inside `update` and, without it, no
coalesced caller is ever resumed. -/
theorem miss_no_effects :
    (∀ (s : TerrainHeightLoader) (x y zoom owner caller : Nat),
      getTile s x y zoom = none →
      (getOrLoadTile s x y zoom owner caller).tiles = s.tiles
      ∧ (getOrLoadTile s x y zoom owner caller).fetches = s.fetches
      ∧ (getOrLoadTile s x y zoom owner caller).resolved = s.resolved
      ∧ (getOrLoadTile s x y zoom owner caller).activeRequests.map Request.coord
          = s.activeRequests.map Request.coord
      ∧ ((∃ r, s.queue.find x y zoom = some r
            ∧ (getOrLoadTile s x y zoom owner caller).queue.queue
                = pushWaiter r.rid caller owner s.queue.queue
            ∧ (getOrLoadTile s x y zoom owner caller).queue.queueInProgress
                = pushWaiter r.rid caller owner s.queue.queueInProgress)
         ∨ (s.queue.find x y zoom = none
            ∧ (getOrLoadTile s x y zoom owner caller).queue.queue
                = s.queue.queue ++ [⟨s.nextRid, x, y, zoom, [(caller, owner)]⟩]
            ∧ (getOrLoadTile s x y zoom owner caller).queue.queueInProgress
                = s.queue.queueInProgress)))
    ∧ (∀ (s : TerrainHeightLoader) (rid : Nat) (outcome : Option Bitmap),
        (completeRequest s rid outcome).fetches = s.fetches) := by
  constructor
  · intro s x y zoom owner caller h
    unfold getOrLoadTile
    rw [h]
    cases h2 : s.queue.find x y zoom with
    | some r =>
        exact ⟨rfl, rfl, rfl, pushWaiter_coords _ _ _ _, Or.inl ⟨r, rfl, rfl, rfl⟩⟩
    | none => exact ⟨rfl, rfl, rfl, rfl, Or.inr ⟨rfl, rfl, rfl⟩⟩
  · intro s rid outcome
    unfold completeRequest
    cases h : findRid s.activeRequests rid with
    | none => rfl
    | some task =>
        simp only [runWaiters_fetches]
        show (load s task.x task.y task.zoom 1 outcome).fetches = s.fetches
        exact load_frame (fun st => st.fetches) (fun _ _ _ _ _ _ => rfl) _ _ _ _ _ _

theorem miss_no_effects_witness :
    getTile initState 4 5 6 = none
    ∧ (getOrLoadTile initState 4 5 6 9 2).tiles = initState.tiles
    ∧ (getOrLoadTile initState 4 5 6 9 2).fetches = initState.fetches :=
  ⟨rfl, (miss_no_effects.1 initState 4 5 6 9 2 rfl).1,
    (miss_no_effects.1 initState 4 5 6 9 2 rfl).2.1⟩
